import Mathlib

/-!
Shallow embedding of `app.py` (Gemini chatbot): Python string primitives,
the Google search client, prompt assembly, the streaming answer generator
with model-variant fallback, and the session-state chat store, together
with theorems about them.
-/

/-! ## Python string primitives

The source manipulates Python `str` values with `.lower()`, `.strip()`,
`.startswith()`, `.replace()` and the `in` operator.  We embed them over
`String` (a structure holding a `List Char`), each definition following
the documented Python semantics for the (ASCII) strings the program uses.
-/

/-- Python `s.lower()` (ASCII model): lower-case every character. -/
def pyLower (s : String) : String := ⟨s.data.map Char.toLower⟩

/-- Python `s.strip()`: remove leading and trailing whitespace. -/
def pyStrip (s : String) : String :=
  ⟨((s.data.dropWhile Char.isWhitespace).reverse.dropWhile Char.isWhitespace).reverse⟩

/-- Python `s.startswith(t)`. -/
def pyStartsWith (s t : String) : Bool := t.data.isPrefixOf s.data

/-- Occurrence check on character lists: does `pat` occur as a contiguous
sub-list of `l`?  Embeds Python `pat in s` for strings. -/
def listOccurs (pat l : List Char) : Bool := l.tails.any (fun t => pat.isPrefixOf t)

/-- Python `pat in s` (substring test). -/
def pyIn (pat s : String) : Bool := listOccurs pat.data s.data

/-- Fuel-indexed worker for `pyReplaceEmpty`: scan left to right, deleting
each non-overlapping occurrence of `pat`, exactly as Python
`str.replace(pat, "")` does for a non-empty `pat`.  The fuel starts at the
length of the scanned list, which bounds the number of steps. -/
def removeAllAux (pat : List Char) : Nat → List Char → List Char
  | _, [] => []
  | 0, l => l
  | n + 1, c :: rest =>
    if pat.isPrefixOf (c :: rest) then removeAllAux pat n ((c :: rest).drop pat.length)
    else c :: removeAllAux pat n rest

/-- Python `s.replace(pat, "")` for a non-empty `pat`: delete every
non-overlapping occurrence of `pat`, scanning left to right.  (The source
only calls `replace` with the fixed pattern `"search:"` and replacement
`""`.) -/
def pyReplaceEmpty (s pat : String) : String := ⟨removeAllAux pat.data s.data.length s.data⟩

/-! ## Data model: messages and search results -/

/-- A chat message, `{"role": ..., "content": ...}` in the source. -/
structure Msg where
  role : String
  content : String
deriving DecidableEq

/-- One search result record as built by `google_search`: the three fields
come from `item.get(...)`, which yields `None` when the key is absent. -/
structure SearchResult where
  title : Option String
  link : Option String
  snippet : Option String
deriving DecidableEq

/-- Python rendering of an `Optional[str]` inside an f-string: `None`
renders as the four characters `"None"`, a string renders as itself. -/
def pyFStr : Option String → String
  | none => "None"
  | some s => s

/-! ## Search client (`google_search`, app.py lines 29-43)

The Custom Search provider is an external boundary: we model one call to
it as a value `Except String CSEResponse` — either the exception the call
raised (as `str(e)`) or the decoded JSON response, whose `"items"` key may
be absent.
-/

/-- One item of the provider response; `item.get` of a missing key is `None`. -/
structure CSEItem where
  title : Option String
  link : Option String
  snippet : Option String
deriving DecidableEq

/-- The provider response: the `"items"` key may be absent. -/
structure CSEResponse where
  items : Option (List CSEItem)
deriving DecidableEq

/-- `google_search(query, num)` (app.py lines 29-43), with the provider
call abstracted as `provider query num`.  On success it maps each item to
a result record; if `"items"` is absent it returns `[]`; on any exception
it returns the single synthetic record
`{"title": "Error", "link": "", "snippet": str(e)}`. -/
def google_search (query : String) (num : Nat)
    (provider : String → Nat → Except String CSEResponse) : List SearchResult :=
  match provider query num with
  | .error e => [⟨some "Error", some "", some e⟩]
  | .ok res =>
    match res.items with
    | none => []
    | some items => items.map (fun it => ⟨it.title, it.link, it.snippet⟩)

/-! ## Prompt assembly (app.py lines 151-152) -/

/-- One line of `context_text`: the f-string
`f"- {r['title']}: {r['snippet']} ({r['link']})"` (app.py line 151). -/
def contextLine (r : SearchResult) : String :=
  "- " ++ pyFStr r.title ++ ": " ++ pyFStr r.snippet ++ " (" ++ pyFStr r.link ++ ")"

/-- `context_text` (app.py line 151): the rendered lines joined by `"\n"`. -/
def context_text (rs : List SearchResult) : String :=
  String.intercalate "\n" (rs.map contextLine)

/-- `full_prompt` (app.py line 152). -/
def full_prompt (p : String) (rs : List SearchResult) : String :=
  "Answer the user query using the following context from recent web search results:\n"
    ++ context_text rs
    ++ "\n\nQuestion: " ++ p
    ++ "\nProvide a clear and concise answer, explaining any discrepancies if multiple sources differ."

/-- One line of `formatted_results` in the `search:` branch: the f-string
`f"**{r['title']}**\n{r['link']}\n{r['snippet']}"` (app.py line 144). -/
def formattedLine (r : SearchResult) : String :=
  "**" ++ pyFStr r.title ++ "**\n" ++ pyFStr r.link ++ "\n" ++ pyFStr r.snippet

/-- `formatted_results` (app.py line 144). -/
def formatted_results (rs : List SearchResult) : String :=
  String.intercalate "\n" (rs.map formattedLine)

/-! ## Answer generator (`get_gemini_streaming`, app.py lines 48-80)

One attempt at a model variant is modelled by the observable behaviour of
the provider call: the sequence of stream chunks the `for chunk in
response` loop sees, followed by either normal completion (`err = none`)
or an exception raised by the call / the stream (`err = some (str e)`).
A chunk is reduced to the list of `part.text` values the inner loop reads
from it (parts without a `text` attribute contribute nothing, a chunk with
empty `candidates` contributes the empty list); `ChunkResult.err ps`
records a chunk whose processing raised an exception after the texts `ps`
had already been consumed — the bare `except ... continue` at app.py
lines 62-63 then moves on to the next chunk.
-/

/-- One stream chunk as seen by the chunk-processing loop. -/
inductive ChunkResult where
  | parts (ps : List String)
  | err (ps : List String)
deriving DecidableEq

/-- The observable behaviour of one model-variant attempt. -/
structure Attempt where
  chunks : List ChunkResult
  err : Option String
deriving DecidableEq

/-- Observable events of the generator: a `yield`, an `st.warning`, an
`st.error`, or a `time.sleep` of the given number of seconds. -/
inductive StreamEvent where
  | yield (s : String)
  | warn (msg : String)
  | errOut (msg : String)
  | sleep (secs : Nat)
deriving DecidableEq

/-- The inner `for part in chunk.candidates[0].content.parts` loop
(app.py lines 58-61): starting from accumulator `acc`, append each text
and yield the running total; returns the final accumulator and the events. -/
def partEvents (acc : String) : List String → String × List StreamEvent
  | [] => (acc, [])
  | p :: rest =>
    ((partEvents (acc ++ p) rest).1,
     StreamEvent.yield (acc ++ p) :: (partEvents (acc ++ p) rest).2)

/-- Processing of one chunk under its `try ... except Exception: continue`
(app.py lines 56-63): a chunk that raises after texts `ps` behaves exactly
like one that delivers `ps` and ends, because the handler just continues. -/
def chunkEvents (acc : String) : ChunkResult → String × List StreamEvent
  | .parts ps => partEvents acc ps
  | .err ps => partEvents acc ps

/-- The `for chunk in response` loop (app.py lines 55-63). -/
def chunksEvents (acc : String) : List ChunkResult → String × List StreamEvent
  | [] => (acc, [])
  | c :: rest =>
    ((chunksEvents (chunkEvents acc c).1 rest).1,
     (chunkEvents acc c).2 ++ (chunksEvents (chunkEvents acc c).1 rest).2)

/-- Python `"429" in str(e)` (app.py line 72). -/
def contains429 (e : String) : Bool := pyIn "429" e

/-- Does an attempt outcome count as a rate-limit failure? (`none` means
the call completed, so it is not a failure at all.) -/
def errIs429 : Option String → Bool
  | none => false
  | some e => contains429 e

/-- The fallback text yielded when every variant failed (app.py line 80). -/
def fallbackMsg : String := "⚠️ Could not generate a response. All models failed."

/-- `get_gemini_streaming` (app.py lines 48-80) over a priority list of
model variants paired with the observable behaviour of each one's call.
Produces the full trace of events in program order: the per-chunk yields,
then — on normal completion — either nothing more (non-empty accumulated
text: the generator returns) or an empty-text warning and the next
variant; on an exception, the rate-limit warning plus `time.sleep(2)` when
`"429" in str(e)`, otherwise an error message, and then the next variant.
When the variants are exhausted it yields the fallback message. -/
def get_gemini_streaming : List (String × Attempt) → List StreamEvent
  | [] => [StreamEvent.yield fallbackMsg]
  | (name, a) :: rest =>
    let acc := (chunksEvents "" a.chunks).1
    let evs := (chunksEvents "" a.chunks).2
    match a.err with
    | some e =>
      if contains429 e then
        evs ++ [StreamEvent.warn ("⏳ Rate limit hit on " ++ name ++ ". Trying next model..."),
                StreamEvent.sleep 2] ++ get_gemini_streaming rest
      else
        evs ++ [StreamEvent.errOut ("⚠️ Error with " ++ name ++ ": " ++ e)]
            ++ get_gemini_streaming rest
    | none =>
      if pyStrip acc = "" then
        evs ++ [StreamEvent.warn ("⚠️ " ++ name ++ " returned no text. Trying next model...")]
            ++ get_gemini_streaming rest
      else evs

/-- The values actually yielded to the consumer of the generator. -/
def yields (evs : List StreamEvent) : List String :=
  evs.filterMap (fun e => match e with | .yield s => some s | _ => none)

/-- The cumulative fragments one attempt's stream yields on its own,
started (as in the source) from the empty accumulator. -/
def attemptYields (a : Attempt) : List String := yields (chunksEvents "" a.chunks).2

/-- Is an event a `time.sleep 2` delay? -/
def isDelay : StreamEvent → Bool
  | .sleep 2 => true
  | _ => false

/-- `MODEL_PRIORITY` (app.py line 24). -/
def MODEL_PRIORITY : List String :=
  ["gemini-2.5-flash", "gemini-2.5-pro", "gemini-2.5-flash-lite"]

/-! ## Conversation store (app.py lines 92-122), value level

`st.session_state.messages` is the active chat, `st.session_state.past_chats`
the archive.  At the value level a chat is just its list of messages.
-/

/-- The per-session state: active chat and archive. -/
structure SessionState where
  messages : List Msg
  past_chats : List (List Msg)
deriving DecidableEq

/-- The "New Chat" button handler (app.py lines 104-107): if the active
chat is non-empty (`if st.session_state.messages:`), append a copy of it
to the archive; then rebind the active chat to a fresh empty list. -/
def newChat (s : SessionState) : SessionState :=
  let s1 := if s.messages.isEmpty then s
            else { s with past_chats := s.past_chats ++ [s.messages] }
  { s1 with messages := [] }

/-- Appending one message to the active chat
(`st.session_state.messages.append(...)`, e.g. app.py line 136). -/
def appendMessage (s : SessionState) (role content : String) : SessionState :=
  { s with messages := s.messages ++ [⟨role, content⟩] }

/-- The filter predicate of the "Search Past Chats" handler (app.py
line 120): `search_query.lower() in m["content"].lower()`. -/
def msgMatches (q : String) (m : Msg) : Bool := pyIn (pyLower q) (pyLower m.content)

/-- The "Search Past Chats" handler (app.py lines 119-122): walk
`st.session_state.past_chats[::-1]` (most-recent-first) and keep, per
archived chat, the messages matching the query case-insensitively. -/
def searchArchive (past : List (List Msg)) (q : String) : List (List Msg) :=
  past.reverse.map (fun chat => chat.filter (fun m => msgMatches q m))

/-! ## Conversation store, heap level (for the aliasing claim)

Python lists are mutable heap objects.  To state that the archive holds a
*copy* of the active list — so later `append`s cannot reach the archived
snapshot — we model the heap explicitly: a store of list objects addressed
by allocation index, with `st.session_state.messages` and each entry of
`st.session_state.past_chats` holding a reference.
-/

/-- The heap-level session: a store of list objects, the reference held by
`messages`, and the references held by the `past_chats` list. -/
structure PyState where
  heap : List (List Msg)
  msgsRef : Nat
  pastRefs : List Nat
deriving DecidableEq

/-- Allocate a fresh list object with contents `v`; returns the extended
heap and the fresh reference. -/
def allocObj (h : List (List Msg)) (v : List Msg) : List (List Msg) × Nat :=
  (h ++ [v], h.length)

/-- Contents of the list object behind reference `r`. -/
def derefObj (s : PyState) (r : Nat) : List Msg := s.heap.getD r []

/-- The "New Chat" button handler at heap level (app.py lines 104-107):
`past_chats.append(messages.copy())` allocates a fresh object holding a
copy of the active contents (when non-empty) and stores its reference in
the archive; `st.session_state.messages = []` rebinds `messages` to a
freshly allocated empty list object. -/
def newChatOp (s : PyState) : PyState :=
  let cur := derefObj s s.msgsRef
  let s1 := if cur.isEmpty then s
            else
              let (h1, r1) := allocObj s.heap cur
              { s with heap := h1, pastRefs := s.pastRefs ++ [r1] }
  let (h2, r2) := allocObj s1.heap []
  { s1 with heap := h2, msgsRef := r2 }

/-- `st.session_state.messages.append({...})` at heap level: mutate the
list object behind `msgsRef` in place. -/
def appendMsgOp (s : PyState) (m : Msg) : PyState :=
  { s with heap := s.heap.set s.msgsRef (derefObj s s.msgsRef ++ [m]) }

/-- A whole sequence of later appends to the active chat. -/
def appendMsgsOp (s : PyState) : List Msg → PyState
  | [] => s
  | m :: ms => appendMsgsOp (appendMsgOp s m) ms

/-! ## Interaction loop (app.py lines 134-162)

One execution of the `if prompt := st.chat_input(...)` block, for a given
prompt.  The two external calls are abstracted: `searchO` answers the
`google_search` call and `modelO` gives, per assembled prompt, the
behaviour of the model variants that `get_gemini_streaming` will try.
The step returns the messages appended to the active chat (in order) and
the list of external calls made.
-/

/-- An external call made during one interaction step. -/
inductive ExtCall where
  | searchCall (q : String) (num : Nat)
  | modelCall (p : String)
deriving DecidableEq

/-- `streamed_text` after the consumer loop (app.py lines 156-159): the
last cumulative partial, or `""` when the generator yielded nothing. -/
def lastYield (ys : List String) : String := ys.getLastD ""

/-- One interaction step (app.py lines 134-162).  If
`prompt.lower().startswith("search:")`: compute
`query = prompt.replace("search:", "").strip()`, call
`google_search(query, num=5)`, and append the formatted results as one
assistant message — no model call.  Otherwise call
`google_search(prompt, num=5)`, assemble `full_prompt`, stream it through
`get_gemini_streaming`, and append the final cumulative text as one
assistant message.  In both branches the user message is appended first. -/
def chatStep (prompt : String)
    (searchO : String → Nat → Except String CSEResponse)
    (modelO : String → List (String × Attempt)) : List Msg × List ExtCall :=
  if pyStartsWith (pyLower prompt) "search:" then
    let query := pyStrip (pyReplaceEmpty prompt "search:")
    let results := google_search query 5 searchO
    ([⟨"user", prompt⟩, ⟨"assistant", formatted_results results⟩],
     [ExtCall.searchCall query 5])
  else
    let results := google_search prompt 5 searchO
    let fp := full_prompt prompt results
    let streamed := lastYield (yields (get_gemini_streaming (modelO fp)))
    ([⟨"user", prompt⟩, ⟨"assistant", streamed⟩],
     [ExtCall.searchCall prompt 5, ExtCall.modelCall fp])

/-! ## Spec-side definitions

For the refinement-style claims we also write down, separately, what the
specification's words describe, to compare with the definitions read off
the source.
-/

/-- Rendering of an absent field as the specification words it: the empty
string. -/
def specFieldStr : Option String → String
  | none => ""
  | some s => s

/-- Prompt assembly exactly as the specification words it: each result
rendered as `- {title}: {snippet} ({link})` with missing fields rendered
as the *empty string*, lines joined by newlines, prefixed by the
instruction to answer from the context and followed by the question and
the reconcile-discrepancies instruction. -/
def assembleSpec (q : String) (rs : List SearchResult) : String :=
  "Answer the user query using the following context from recent web search results:\n"
    ++ String.intercalate "\n"
        (rs.map (fun r => "- " ++ specFieldStr r.title ++ ": " ++ specFieldStr r.snippet
                            ++ " (" ++ specFieldStr r.link ++ ")"))
    ++ "\n\nQuestion: " ++ q
    ++ "\nProvide a clear and concise answer, explaining any discrepancies if multiple sources differ."

/-- Prompt assembly as the code actually behaves, worded independently of
`full_prompt`: identical to `assembleSpec` except that an absent field
renders as the Python text `"None"`. -/
def assembleAmendedSpec (q : String) (rs : List SearchResult) : String :=
  "Answer the user query using the following context from recent web search results:\n"
    ++ String.intercalate "\n"
        (rs.map (fun r => "- " ++ pyFStr r.title ++ ": " ++ pyFStr r.snippet
                            ++ " (" ++ pyFStr r.link ++ ")"))
    ++ "\n\nQuestion: " ++ q
    ++ "\nProvide a clear and concise answer, explaining any discrepancies if multiple sources differ."

/-- The query the claim predicts for a `search:`-prefixed input: exactly
the leading seven-character marker removed, then whitespace-trimmed. -/
def claimQuery (p : String) : String := pyStrip ⟨p.data.drop "search:".data.length⟩

/-! ## C3: prompt assembly -/

/-- C3 (amended): `full_prompt` is exactly the assembly the claim
describes — result lines `- {title}: {snippet} ({link})` joined by
newlines, wrapped in the two instructions and the question — except that
an absent (None) field renders as the Python text `"None"`, not as the
empty string. -/
theorem c3_prompt_assembly_amended (q : String) (rs : List SearchResult) :
    full_prompt q rs = assembleAmendedSpec q rs := rfl

/-- C3 counterexample: at a result whose `title` is absent, the code's
prompt differs from the claim's rendering (the claim says missing fields
render as the empty string; the code renders `None`). -/
theorem c3_none_field_counterexample :
    full_prompt "q" [⟨none, some "l", some "s"⟩]
      ≠ assembleSpec "q" [⟨none, some "l", some "s"⟩] := by decide

/-! ## C6: archive-and-reset -/

/-- C6: the "New Chat" handler archives a snapshot of a non-empty active
chat at the end of the archive (most-recent-last) and empties the active
chat; on an empty active chat the archive is unchanged and the active
chat stays empty. -/
theorem c6_archive_and_reset (s : SessionState) :
    (s.messages ≠ [] →
      (newChat s).past_chats = s.past_chats ++ [s.messages] ∧ (newChat s).messages = [])
    ∧ (s.messages = [] →
      (newChat s).past_chats = s.past_chats ∧ (newChat s).messages = []) := by
  constructor
  · intro h
    simp [newChat, List.isEmpty_iff, h]
  · intro h
    simp [newChat, h]

/-! ## C7: searching past chats -/

/-- `listOccurs` decides the contiguous-sub-list relation. -/
theorem listOccurs_iff (pat l : List Char) : listOccurs pat l = true ↔ pat <:+: l := by
  simp only [listOccurs, List.any_eq_true, List.mem_tails, List.isPrefixOf_iff_prefix,
    List.infix_iff_prefix_suffix]
  constructor
  · rintro ⟨t, h1, h2⟩; exact ⟨t, h2, h1⟩
  · rintro ⟨t, h1, h2⟩; exact ⟨t, h2, h1⟩

/-- `getD` through a map whose function sends `[]` to `[]`, specialised to
the per-chat filter of the archive search. -/
theorem getD_map_filter (p : Msg → Bool) (l : List (List Msg)) (i : Nat) :
    (l.map (fun chat => chat.filter p)).getD i [] = (l.getD i []).filter p := by
  induction l generalizing i with
  | nil => simp [List.getD]
  | cons a t ih =>
    cases i with
    | zero => simp
    | succ n => simpa using ih n

/-- C7: the archive search selects exactly the messages whose content
contains the query as a case-insensitive substring (first conjunct: the
match test is the abstract infix relation on lower-cased contents), visits
archived chats most-recent-first (second and third conjuncts: appending a
newest chat puts its matches first, and the `i`-th result block is the
filtered `i`-th most recent chat, in original message order), and on the
archived chat `["Hello world", "Goodbye"]` with query `"hello"` returns
exactly the `"Hello world"` message (fourth conjunct). -/
theorem c7_search_archive :
    (∀ q m, msgMatches q m = true ↔ (pyLower q).data <:+: (pyLower m.content).data)
    ∧ (∀ past c q, searchArchive (past ++ [c]) q
        = c.filter (fun m => msgMatches q m) :: searchArchive past q)
    ∧ (∀ past q i, (searchArchive past q).getD i []
        = (past.reverse.getD i []).filter (fun m => msgMatches q m))
    ∧ searchArchive [[⟨"user", "Hello world"⟩, ⟨"assistant", "Goodbye"⟩]] "hello"
        = [[⟨"user", "Hello world"⟩]] := by
  refine ⟨?_, ?_, ?_, by decide⟩
  · intro q m; exact listOccurs_iff _ _
  · intro past c q; simp [searchArchive, List.reverse_append]
  · intro past q i; exact getD_map_filter (fun m => msgMatches q m) past.reverse i

/-! ## C5: search client error boundary -/

/-- C5: provided the provider honours the requested count (its `items`
list, when the call succeeds, has at most `n` entries — the documented
contract of the Custom Search `num` parameter), `google_search` returns at
most `n` records; and when the provider call raises, it returns exactly
the single synthetic record with title `"Error"`, link `""` and the
failure description as snippet.  It is a total function: no exception
escapes it. -/
theorem c5_search_client_bounds (q : String) (n : Nat)
    (provider : String → Nat → Except String CSEResponse)
    (_hq : q ≠ "") (hn : 0 < n)
    (hcap : ∀ r, provider q n = Except.ok r → (r.items.getD []).length ≤ n) :
    (google_search q n provider).length ≤ n
    ∧ ∀ e, provider q n = Except.error e →
        google_search q n provider = [⟨some "Error", some "", some e⟩] := by
  constructor
  · cases h : provider q n with
    | error e =>
      have hl : (google_search q n provider).length = 1 := by simp [google_search, h]
      omega
    | ok r =>
      have hc := hcap r h
      cases hi : r.items with
      | none => simp [google_search, h, hi]
      | some items =>
        simp only [google_search, h, hi, List.length_map]
        simpa [hi] using hc
  · intro e he
    simp [google_search, he]

/-- C5 witness at a concrete provider returning one item for `num = 1`. -/
theorem c5_search_client_bounds_witness :
    (google_search "lean" 1
        (fun _ _ => Except.ok ⟨some [⟨some "t", some "l", some "s"⟩]⟩)).length ≤ 1
    ∧ ∀ e, (fun _ _ => Except.ok (⟨some [⟨some "t", some "l", some "s"⟩]⟩ : CSEResponse) :
          String → Nat → Except String CSEResponse) "lean" 1 = Except.error e →
        google_search "lean" 1
            (fun _ _ => Except.ok ⟨some [⟨some "t", some "l", some "s"⟩]⟩)
          = [⟨some "Error", some "", some e⟩] :=
  c5_search_client_bounds "lean" 1 _ (by decide) (by decide)
    (by intro r h; injection h with h2; rw [← h2]; decide)

/-! ## C2: the `search:` dispatch -/

/-- C2 (amended): for an input whose lower-casing starts with `search:`,
the step computes the query by deleting every case-sensitive occurrence of
the lowercase literal `"search:"` anywhere in the input
(`prompt.replace("search:", "")`) and trimming whitespace — the dispatch
test is case-insensitive but the removal is case-sensitive and global —
passes it to the search client with count 5, appends exactly the user
message and one assistant message holding the formatted results, and makes
no model call. -/
theorem c2_search_dispatch_amended (p : String)
    (searchO : String → Nat → Except String CSEResponse)
    (modelO : String → List (String × Attempt))
    (h : pyStartsWith (pyLower p) "search:" = true) :
    (chatStep p searchO modelO).1
      = [⟨"user", p⟩,
         ⟨"assistant", formatted_results
            (google_search (pyStrip (pyReplaceEmpty p "search:")) 5 searchO)⟩]
    ∧ (chatStep p searchO modelO).2
      = [ExtCall.searchCall (pyStrip (pyReplaceEmpty p "search:")) 5]
    ∧ ∀ fp, ExtCall.modelCall fp ∉ (chatStep p searchO modelO).2 := by
  refine ⟨?_, ?_, ?_⟩ <;> simp [chatStep, h]

/-- C2 witness at the concrete input `"search: cats"`. -/
theorem c2_search_dispatch_witness :
    (chatStep "search: cats" (fun _ _ => Except.error "neterr") (fun _ => [])).1
      = [⟨"user", "search: cats"⟩,
         ⟨"assistant", formatted_results
            (google_search (pyStrip (pyReplaceEmpty "search: cats" "search:")) 5
              (fun _ _ => Except.error "neterr"))⟩]
    ∧ (chatStep "search: cats" (fun _ _ => Except.error "neterr") (fun _ => [])).2
      = [ExtCall.searchCall (pyStrip (pyReplaceEmpty "search: cats" "search:")) 5]
    ∧ ∀ fp, ExtCall.modelCall fp
        ∉ (chatStep "search: cats" (fun _ _ => Except.error "neterr") (fun _ => [])).2 :=
  c2_search_dispatch_amended "search: cats" _ _ (by decide)

/-- C2 counterexample: on the input `"Search: x"` the dispatch test fires
(case-insensitively), but the code's query keeps the marker — Python
`replace` is case-sensitive, so nothing is stripped — whereas the claim
predicts the query `"x"` (the leading marker removed and the remainder
trimmed). -/
theorem c2_mixed_case_counterexample :
    pyStartsWith (pyLower "Search: x") "search:" = true
    ∧ (chatStep "Search: x" (fun _ _ => Except.ok ⟨none⟩) (fun _ => [])).2
        = [ExtCall.searchCall "Search: x" 5]
    ∧ claimQuery "Search: x" = "x"
    ∧ ("Search: x" : String) ≠ "x" := by decide

/-! ## Streaming lemmas -/

/-- The texts an individual chunk delivers before (possibly) raising. -/
def chunkTexts : ChunkResult → List String
  | .parts ps => ps
  | .err ps => ps

/-- Chunk processing only sees the delivered texts. -/
theorem chunkEvents_eq_partEvents (acc : String) (c : ChunkResult) :
    chunkEvents acc c = partEvents acc (chunkTexts c) := by
  cases c <;> rfl

/-- `yields` distributes over concatenation of event traces. -/
theorem yields_append (l1 l2 : List StreamEvent) :
    yields (l1 ++ l2) = yields l1 ++ yields l2 := by
  simp [yields]

/-- Replacing a chunk that raised after delivering `ps` by one that
delivered `ps` and completed changes nothing in the stream processing. -/
theorem chunksEvents_err_eq_parts (pre : List ChunkResult) (acc : String)
    (post : List ChunkResult) (ps : List String) :
    chunksEvents acc (pre ++ ChunkResult.err ps :: post)
      = chunksEvents acc (pre ++ ChunkResult.parts ps :: post) := by
  induction pre generalizing acc with
  | nil => rfl
  | cons c t ih => simp [chunksEvents, ih]

/-! ## C9: per-chunk errors are silently skipped -/

/-- C9: a chunk whose processing raises is skipped silently — a chunk that
raised immediately contributes nothing and streaming continues with the
next chunk (second conjunct); replacing a chunk that raised after texts
`ps` by one that delivered `ps` and completed changes neither the stream
processing (first conjunct) nor any event of the whole generator run — in
particular no warning is emitted and no fallback to the next variant is
triggered by it (third conjunct). -/
theorem c9_chunk_error_skipped :
    (∀ acc pre post ps, chunksEvents acc (pre ++ ChunkResult.err ps :: post)
        = chunksEvents acc (pre ++ ChunkResult.parts ps :: post))
    ∧ (∀ acc pre post, chunksEvents acc (pre ++ ChunkResult.err [] :: post)
        = chunksEvents acc (pre ++ post))
    ∧ (∀ name e pre post ps rest,
        get_gemini_streaming ((name, ⟨pre ++ ChunkResult.err ps :: post, e⟩) :: rest)
          = get_gemini_streaming ((name, ⟨pre ++ ChunkResult.parts ps :: post, e⟩) :: rest)) := by
  refine ⟨fun acc pre post ps => chunksEvents_err_eq_parts pre acc post ps, ?_, ?_⟩
  · intro acc pre post
    induction pre generalizing acc with
    | nil => simp [chunksEvents, chunkEvents, partEvents]
    | cons c t ih => simp [chunksEvents, ih]
  · intro name e pre post ps rest
    simp only [get_gemini_streaming, chunksEvents_err_eq_parts]

/-- `getLastD` over a concatenation threads the default through the first
part. -/
theorem listGetLastD_append {α : Type} (l1 l2 : List α) (d : α) :
    (l1 ++ l2).getLastD d = l2.getLastD (l1.getLastD d) := by
  induction l1 generalizing d with
  | nil => rfl
  | cons a t ih => rw [List.cons_append, List.getLastD_cons, ih, List.getLastD_cons]

/-- Gluing two prefix-chains: a chain out of `acc` whose last element is
`a1`, followed by a chain out of `a1`. -/
theorem chainPrefix_glue (y1 : List String) (acc a1 : String) (y2 : List String)
    (h1 : List.Chain' (fun a b : String => a.data <+: b.data) (acc :: y1))
    (hl : y1.getLastD acc = a1)
    (h2 : List.Chain' (fun a b : String => a.data <+: b.data) (a1 :: y2)) :
    List.Chain' (fun a b : String => a.data <+: b.data) (acc :: y1 ++ y2) := by
  induction y1 generalizing acc with
  | nil =>
    simp only [List.getLastD_nil] at hl
    subst hl
    exact h2
  | cons b t ih =>
    rw [List.chain'_cons] at h1
    simp only [List.getLastD_cons] at hl
    exact List.chain'_cons.mpr ⟨h1.1, ih b h1.2 hl⟩

/-- The part loop yields a prefix-chain out of the starting accumulator,
whose last element is the final accumulator. -/
theorem partEvents_chain (ps : List String) (acc : String) :
    List.Chain' (fun a b : String => a.data <+: b.data)
      (acc :: yields (partEvents acc ps).2)
    ∧ (yields (partEvents acc ps).2).getLastD acc = (partEvents acc ps).1 := by
  induction ps generalizing acc with
  | nil => simp [partEvents, yields]
  | cons p rest ih =>
    obtain ⟨ihc, ihl⟩ := ih (acc ++ p)
    constructor
    · simp only [partEvents, yields, List.filterMap_cons]
      exact List.chain'_cons.mpr ⟨by simp, ihc⟩
    · simp only [partEvents, yields, List.filterMap_cons, List.getLastD_cons]
      exact ihl

/-- The chunk loop yields a prefix-chain out of the starting accumulator,
whose last element is the final accumulator. -/
theorem chunksEvents_chain (cs : List ChunkResult) (acc : String) :
    List.Chain' (fun a b : String => a.data <+: b.data)
      (acc :: yields (chunksEvents acc cs).2)
    ∧ (yields (chunksEvents acc cs).2).getLastD acc = (chunksEvents acc cs).1 := by
  induction cs generalizing acc with
  | nil => simp [chunksEvents, yields]
  | cons c rest ih =>
    obtain ⟨pc, pl⟩ := partEvents_chain (chunkTexts c) acc
    obtain ⟨rc, rl⟩ := ih (partEvents acc (chunkTexts c)).1
    rw [← chunkEvents_eq_partEvents] at pc pl rc rl
    constructor
    · simp only [chunksEvents, yields_append]
      exact chainPrefix_glue _ _ _ _ pc pl rc
    · simp only [chunksEvents, yields_append, listGetLastD_append, pl]
      exact rl

/-! ## C8: within-attempt monotone growth -/

/-- C8: within a single variant attempt the yielded values grow
monotonically — starting from the empty accumulator, each yielded value
has the previous one as a prefix (first conjunct, a prefix-chain seeded
with `""`); across a variant switch the accumulation restarts from the
empty string and the relation is not maintained: in the concrete run
below the first variant yields `"abc"`, then fails, and the next variant's
first yield `"x"` does not extend it. -/
theorem c8_cumulative_monotone :
    (∀ cs : List ChunkResult, List.Chain' (fun a b : String => a.data <+: b.data)
        ("" :: yields (chunksEvents "" cs).2))
    ∧ yields (get_gemini_streaming
        [("m1", ⟨[ChunkResult.parts ["abc"]], some "boom"⟩),
         ("m2", ⟨[ChunkResult.parts ["x"]], none⟩)]) = ["abc", "x"]
    ∧ ¬ ("abc" : String).data <+: ("x" : String).data := by
  exact ⟨fun cs => (chunksEvents_chain cs "").1, by decide, by decide⟩

/-- A part loop that produced no events left the accumulator unchanged. -/
theorem partEvents_acc_of_no_events (ps : List String) (acc : String)
    (h : (partEvents acc ps).2 = []) : (partEvents acc ps).1 = acc := by
  cases ps with
  | nil => rfl
  | cons p rest => simp [partEvents] at h

/-- A chunk loop that produced no events left the accumulator unchanged. -/
theorem chunksEvents_acc_of_no_events (cs : List ChunkResult) (acc : String)
    (h : (chunksEvents acc cs).2 = []) : (chunksEvents acc cs).1 = acc := by
  induction cs generalizing acc with
  | nil => rfl
  | cons c rest ih =>
    simp only [chunksEvents, List.append_eq_nil] at h
    obtain ⟨h1, h2⟩ := h
    have ha : (chunkEvents acc c).1 = acc := by
      rw [chunkEvents_eq_partEvents] at h1 ⊢
      exact partEvents_acc_of_no_events _ _ h1
    show (chunksEvents (chunkEvents acc c).1 rest).1 = acc
    rw [ha] at h2 ⊢
    exact ih acc h2

/-! ## C1: success on the last variant after silent empty variants -/

/-- C1 (amended): if every earlier variant's call completes normally while
delivering no text parts at all — so its accumulated text is empty and it
yields nothing — and the last variant completes with accumulated text that
is non-empty after stripping, then the generator's yielded sequence is
exactly the last variant's cumulative fragments: nothing from the earlier
variants appears and the fallback message is never emitted (the generator
returns right after the successful variant). -/
theorem c1_success_after_silent_variants (front : List (String × Attempt))
    (name : String) (a : Attempt)
    (hfront : ∀ p ∈ front, p.2.err = none ∧ (chunksEvents "" p.2.chunks).2 = [])
    (herr : a.err = none)
    (hne : pyStrip (chunksEvents "" a.chunks).1 ≠ "") :
    yields (get_gemini_streaming (front ++ [(name, a)])) = attemptYields a := by
  induction front with
  | nil =>
    simp only [List.nil_append, get_gemini_streaming, herr]
    rw [if_neg hne]
    rfl
  | cons p front ih =>
    obtain ⟨n0, a0⟩ := p
    obtain ⟨h0err, h0evs⟩ := hfront (n0, a0) (List.mem_cons_self _ _)
    have h0e : a0.err = none := h0err
    have h0v : (chunksEvents "" a0.chunks).2 = [] := h0evs
    have hacc : (chunksEvents "" a0.chunks).1 = "" :=
      chunksEvents_acc_of_no_events _ _ h0v
    have hrest : ∀ p ∈ front, p.2.err = none ∧ (chunksEvents "" p.2.chunks).2 = [] :=
      fun q hq => hfront q (List.mem_cons_of_mem _ hq)
    rw [List.cons_append]
    simp only [get_gemini_streaming, h0e, h0v, hacc]
    rw [if_pos (show pyStrip "" = "" from rfl)]
    simpa [yields] using ih hrest

/-- C1 witness: one silent variant, then a successful one. -/
theorem c1_success_after_silent_variants_witness :
    yields (get_gemini_streaming
        [("gemini-2.5-flash", ⟨[], none⟩),
         ("gemini-2.5-pro", ⟨[ChunkResult.parts ["Hello"]], none⟩)])
      = attemptYields ⟨[ChunkResult.parts ["Hello"]], none⟩ :=
  c1_success_after_silent_variants [("gemini-2.5-flash", ⟨[], none⟩)] "gemini-2.5-pro"
    ⟨[ChunkResult.parts ["Hello"]], none⟩ (by decide) (by decide) (by decide)

/-- C1 counterexample: a first variant whose stream delivers one part with
text `""` completes with empty accumulated text, yet its yield `""` is an
element of the generator's output, so the output is not only the last
variant's fragments. -/
theorem c1_empty_text_counterexample :
    (chunksEvents "" [ChunkResult.parts [""]]).1 = ""
    ∧ pyStrip (chunksEvents "" [ChunkResult.parts ["hi"]]).1 ≠ ""
    ∧ yields (get_gemini_streaming
        [("m1", ⟨[ChunkResult.parts [""]], none⟩),
         ("m2", ⟨[ChunkResult.parts ["hi"]], none⟩)])
      ≠ attemptYields ⟨[ChunkResult.parts ["hi"]], none⟩ := by decide

/-! ## C4: all variants rate-limited -/

/-- C4: if every variant's call fails with a rate-limit exception (its
description contains `"429"`) without delivering any chunk, the generator
performs one `time.sleep(2)` delay per variant (first conjunct), its
yielded output is exactly the single fallback message (second conjunct),
which it ends with (third conjunct); being a total function of the
attempts it raises nothing to its caller. -/
theorem c4_all_rate_limited (attempts : List (String × Attempt))
    (h : ∀ p ∈ attempts, p.2.chunks = [] ∧ errIs429 p.2.err = true) :
    (get_gemini_streaming attempts).countP isDelay = attempts.length
    ∧ yields (get_gemini_streaming attempts) = [fallbackMsg]
    ∧ ∃ pre, get_gemini_streaming attempts = pre ++ [StreamEvent.yield fallbackMsg] := by
  induction attempts with
  | nil =>
    refine ⟨by simp [get_gemini_streaming, isDelay], by simp [get_gemini_streaming, yields], [], rfl⟩
  | cons p rest ih =>
    obtain ⟨n0, a0⟩ := p
    obtain ⟨hch, h429⟩ := h (n0, a0) (List.mem_cons_self _ _)
    obtain ⟨hc, hy, pre, hp⟩ := ih (fun q hq => h q (List.mem_cons_of_mem _ hq))
    cases he : a0.err with
    | none => rw [he] at h429; simp [errIs429] at h429
    | some e =>
      rw [he] at h429
      simp only [errIs429] at h429
      have hch2 : a0.chunks = [] := hch
      simp only [get_gemini_streaming, he, hch2, h429, chunksEvents, eq_self_iff_true,
        if_true, List.nil_append, List.cons_append]
      refine ⟨?_, ?_, ?_⟩
      · simp [List.countP_cons, isDelay, hc]
      · simp only [yields, List.filterMap_cons]
        exact hy
      · exact ⟨StreamEvent.warn ("⏳ Rate limit hit on " ++ n0 ++ ". Trying next model...")
            :: StreamEvent.sleep 2 :: pre, by simp [hp]⟩

/-- C4 witness: a single rate-limited variant. -/
theorem c4_all_rate_limited_witness :
    (get_gemini_streaming
        [("gemini-2.5-flash", ⟨[], some "429 Too Many Requests"⟩)]).countP isDelay = 1
    ∧ yields (get_gemini_streaming
        [("gemini-2.5-flash", ⟨[], some "429 Too Many Requests"⟩)]) = [fallbackMsg]
    ∧ ∃ pre, get_gemini_streaming
        [("gemini-2.5-flash", ⟨[], some "429 Too Many Requests"⟩)]
          = pre ++ [StreamEvent.yield fallbackMsg] := by
  simpa using c4_all_rate_limited
    [("gemini-2.5-flash", ⟨[], some "429 Too Many Requests"⟩)] (by decide)

/-! ## C10: the archive holds copies, not aliases -/

/-- `getD` after updating a different index is unchanged. -/
theorem listGetD_set_ne {α : Type} (l : List α) (i j : Nat) (v d : α) (h : i ≠ j) :
    (l.set i v).getD j d = l.getD j d := by
  induction l generalizing i j with
  | nil => simp
  | cons a t ih =>
    cases i with
    | zero =>
      cases j with
      | zero => exact absurd rfl h
      | succ n => simp [List.set]
    | succ m =>
      cases j with
      | zero => simp [List.set]
      | succ n => simpa [List.set] using ih m n (fun hh => h (by rw [hh]))

/-- `getD` inside the left part of a concatenation. -/
theorem listGetD_append_left {α : Type} (l1 l2 : List α) (r : Nat) (d : α)
    (h : r < l1.length) :
    (l1 ++ l2).getD r d = l1.getD r d := by
  induction l1 generalizing r with
  | nil => simp at h
  | cons a t ih =>
    cases r with
    | zero => rfl
    | succ n => simpa using ih n (by simpa using h)

/-- `getD` at the index of a freshly appended element. -/
theorem listGetD_append_length {α : Type} (l : List α) (v d : α) :
    (l ++ [v]).getD l.length d = v := by
  induction l with
  | nil => rfl
  | cons a t ih =>
    simp only [List.cons_append, List.length_cons, List.getD_cons_succ]
    exact ih

/-- Appending messages to the active chat only mutates the object behind
`msgsRef`; every other reference is untouched. -/
theorem appendMsgsOp_frame (ms : List Msg) (t : PyState) (r : Nat)
    (hr : r ≠ t.msgsRef) :
    derefObj (appendMsgsOp t ms) r = derefObj t r := by
  induction ms generalizing t with
  | nil => rfl
  | cons m ms ih =>
    show derefObj (appendMsgsOp (appendMsgOp t m) ms) r = derefObj t r
    rw [ih (appendMsgOp t m) hr]
    exact listGetD_set_ne t.heap t.msgsRef r _ [] (fun hh => hr hh.symm)

/-- C10: running "New Chat" on a non-empty active chat allocates a fresh
object for the new active chat, distinct from every archived reference
(first conjunct); the newest archive entry holds a copy of the old active
contents (second conjunct); and any sequence of later appends to the
active chat leaves the contents behind every archived reference unchanged
(third conjunct). -/
theorem c10_archive_frame (s : PyState) (ms : List Msg)
    (hv : ∀ r ∈ s.pastRefs, r < s.heap.length)
    (hne : derefObj s s.msgsRef ≠ []) :
    (newChatOp s).msgsRef ∉ (newChatOp s).pastRefs
    ∧ derefObj (newChatOp s) s.heap.length = derefObj s s.msgsRef
    ∧ ∀ r ∈ (newChatOp s).pastRefs,
        derefObj (appendMsgsOp (newChatOp s) ms) r = derefObj (newChatOp s) r := by
  have hs : newChatOp s
      = { heap := (s.heap ++ [derefObj s s.msgsRef]) ++ [[]],
          msgsRef := s.heap.length + 1,
          pastRefs := s.pastRefs ++ [s.heap.length] } := by
    simp [newChatOp, allocObj, List.isEmpty_iff, hne]
  have href : ∀ r ∈ s.pastRefs ++ [s.heap.length], r ≠ s.heap.length + 1 := by
    intro r hr
    rcases List.mem_append.mp hr with h1 | h1
    · have := hv r h1; omega
    · simp only [List.mem_singleton] at h1; omega
  refine ⟨?_, ?_, ?_⟩
  · rw [hs]
    intro hmem
    exact href _ hmem rfl
  · rw [hs]
    show ((s.heap ++ [derefObj s s.msgsRef]) ++ [[]]).getD s.heap.length [] = _
    rw [listGetD_append_left _ _ _ _ (by simp), listGetD_append_length]
  · intro r hr
    rw [hs] at hr ⊢
    exact appendMsgsOp_frame ms _ r (href r hr)

/-- C10 witness: one archived chat, then an append to the fresh active
chat. -/
theorem c10_archive_frame_witness :
    (newChatOp ⟨[[⟨"user", "hi"⟩]], 0, []⟩).msgsRef
        ∉ (newChatOp ⟨[[⟨"user", "hi"⟩]], 0, []⟩).pastRefs
    ∧ derefObj (newChatOp ⟨[[⟨"user", "hi"⟩]], 0, []⟩) 1
        = derefObj (⟨[[⟨"user", "hi"⟩]], 0, []⟩ : PyState) 0
    ∧ ∀ r ∈ (newChatOp ⟨[[⟨"user", "hi"⟩]], 0, []⟩).pastRefs,
        derefObj (appendMsgsOp (newChatOp ⟨[[⟨"user", "hi"⟩]], 0, []⟩) [⟨"user", "yo"⟩]) r
          = derefObj (newChatOp ⟨[[⟨"user", "hi"⟩]], 0, []⟩) r := by
  simpa using c10_archive_frame ⟨[[⟨"user", "hi"⟩]], 0, []⟩ [⟨"user", "yo"⟩]
    (by decide) (by decide)
